import Mathlib

/-!
Verification of the reconciliation engine in `src/reconcile.py`.

The script reconciles a bank feed against a general-ledger (GL) feed.
We embed its core shallowly:

* Strings are sequences of Unicode code points (`List Nat`), as in Python.
* Amounts are `Option ℚ` (`None` for an unparseable amount, mirroring NaN),
  dates are `Option Int` counting days (mirroring NaT), since pandas
  comparisons against NaN/NaT are always false.
* The mutable `matched` columns become `matched` fields on records, and
  each matcher pass is a structurally recursive function threading the
  record lists.
-/

namespace Reconcile

/-! ## Text normalizer (`normalize_text`) -/

/-- Code points of the fixed punctuation list
`[",", ".", "|", "/", "\\", "-", "_", ":", ";", "#", "(", ")", "[", "]"]`
replaced by spaces in `normalize_text`. -/
def PUNCT_CODES : List Nat :=
  [','.toNat, '.'.toNat, '|'.toNat, '/'.toNat, '\\'.toNat, '-'.toNat,
   '_'.toNat, ':'.toNat, ';'.toNat, '#'.toNat, '('.toNat, ')'.toNat,
   '['.toNat, ']'.toNat]

/-- Python `str.lower` restricted to the ASCII range: uppercase letters
(code 65–90) shift by 32, everything else is unchanged. -/
def lowerCode (c : Nat) : Nat :=
  if 65 ≤ c ∧ c ≤ 90 then c + 32 else c

/-- One step of the `s.replace(ch, " ")` loop: a punctuation code point
becomes a space (32). -/
def replCode (c : Nat) : Nat :=
  if c ∈ PUNCT_CODES then 32 else c

/-- Python whitespace test used by `str.split()` (ASCII fragment):
space (32) and the control characters 9–13. -/
def isWsCode (c : Nat) : Bool :=
  c == 32 || (9 ≤ c && c ≤ 13)

/-- Accumulator version of Python `str.split()`: maximal runs of
non-whitespace code points, empties dropped. `acc` is the token currently
being built. -/
def splitWsAux : List Nat → List Nat → List (List Nat)
  | [], acc => if acc = [] then [] else [acc]
  | c :: cs, acc =>
    if isWsCode c then
      if acc = [] then splitWsAux cs [] else acc :: splitWsAux cs []
    else
      splitWsAux cs (acc ++ [c])

/-- Python `str.split()` with no separator argument. -/
def splitWs (s : List Nat) : List (List Nat) :=
  splitWsAux s []

/-- Python `" ".join(tokens)`. -/
def joinTokens : List (List Nat) → List Nat
  | [] => []
  | t :: ts =>
    match ts with
    | [] => t
    | _ :: _ => t ++ 32 :: joinTokens ts

/-- `normalize_text` from the script (on a non-null string): lowercase,
replace each punctuation character by a space, then
`" ".join(s.split())`. -/
def normalize_text (s : List Nat) : List Nat :=
  joinTokens (splitWs ((s.map lowerCode).map replCode))

/-- The code points of a Lean string literal, to write concrete inputs. -/
def strCodes (s : String) : List Nat :=
  s.data.map Char.toNat

/-- `set(s.split())`: the whitespace-split token set of a string (a
duplicate-free list of tokens, in first-occurrence order). -/
def tokenSet (s : List Nat) : List (List Nat) :=
  (splitWs s).dedup

/-- `len(bTokens.intersection(set(memo.split())))`: number of distinct
shared tokens between two strings. -/
def overlapScore (desc memo : List Nat) : Nat :=
  ((tokenSet desc).filter (fun t => decide (t ∈ tokenSet memo))).length

/-! ## Data model -/

/-- A bank-statement row after `load_inputs`: parsed date and amount
(`none` for NaT/NaN), cached normalized description, and the mutable
`matched` flag. -/
structure BankRecord where
  bank_id : Nat
  txn_date : Option Int
  amount : Option ℚ
  desc_norm : List Nat
  matched : Bool
deriving DecidableEq

/-- A general-ledger row after `load_inputs`. -/
structure GlRecord where
  gl_id : Nat
  posting_date : Option Int
  amount : Option ℚ
  memo_norm : List Nat
  matched : Bool
deriving DecidableEq

/-- The two match types emitted by the engine. -/
inductive MatchType where
  | exact_amount
  | tolerance_date
deriving DecidableEq

/-- One element of the `matches` list: `(bank_id, gl_id, match_type)`. -/
structure MatchResult where
  bank_id : Nat
  gl_id : Nat
  match_type : MatchType
deriving DecidableEq

/-- `TOLERANCE = 1.00`. -/
def TOLERANCE : ℚ := 1

/-- `DATE_WINDOW_DAYS = 3`. -/
def DATE_WINDOW_DAYS : Int := 3

/-! ## Shared matcher plumbing -/

/-- `gl.loc[gl["gl_id"] == gid, "matched"] = True`. -/
def markGl (gl : List GlRecord) (gid : Nat) : List GlRecord :=
  gl.map (fun g => if g.gl_id = gid then { g with matched := true } else g)

/-- Pandas float equality on possibly-NaN amounts: comparisons against
NaN are false. -/
def amtEq : Option ℚ → Option ℚ → Bool
  | some x, some y => decide (x = y)
  | _, _ => false

/-- `posting_date >= lo and posting_date <= hi`; comparisons against NaT
are false. -/
def dateInWindow : Option Int → Int → Int → Bool
  | some d, lo, hi => decide (lo ≤ d) && decide (d ≤ hi)
  | none, _, _ => false

/-- `amount.between(lo, hi)` (inclusive on both ends); false on NaN. -/
def amtBetween : Option ℚ → ℚ → ℚ → Bool
  | some x, lo, hi => decide (lo ≤ x) && decide (x ≤ hi)
  | none, _, _ => false

/-- Phase-1 candidate pool for a bank record: currently-unmatched GL
records whose amount equals the bank amount exactly. -/
def exactCandidates (b : BankRecord) (gl : List GlRecord) : List GlRecord :=
  gl.filter (fun g => !g.matched && amtEq g.amount b.amount)

/-- Phase-1 decision for one bank record: matched GL id iff the candidate
pool is a singleton (`len(candidates) == 1`, then `candidates.iloc[0]`). -/
def exactDecision (b : BankRecord) (gl : List GlRecord) : Option Nat :=
  match exactCandidates b gl with
  | [g] => some g.gl_id
  | _ => none

/-- Phase-2 candidate pool for bank date `d` and amount `a`:
currently-unmatched GL records with posting date in
`[d - DATE_WINDOW_DAYS, d + DATE_WINDOW_DAYS]` and amount in
`[a - TOLERANCE, a + TOLERANCE]`. -/
def tolCandidates (d : Int) (a : ℚ) (gl : List GlRecord) : List GlRecord :=
  gl.filter (fun g =>
    !g.matched &&
    dateInWindow g.posting_date (d - DATE_WINDOW_DAYS) (d + DATE_WINDOW_DAYS) &&
    amtBetween g.amount (a - TOLERANCE) (a + TOLERANCE))

/-- Insertion step of the concrete descending sort `sortDesc`; see there
for the tie-order caveat. -/
def insertDesc {α : Type} (x : α × Nat) : List (α × Nat) → List (α × Nat)
  | [] => [x]
  | y :: ys => if y.2 ≤ x.2 then x :: y :: ys else y :: insertDesc x ys

/-- `candidates.sort_values(by=["token_overlap"], ascending=False)`.
The source uses the default `kind` (quicksort), which pandas documents
as not stable, and pandas produces descending order by reversing the
ascending argsort, so the order among candidates with EQUAL scores is
implementation-defined and not derivable from the source.  The
embedding must fix some executable descending sort; this insertion sort
is one such choice.  Every theorem below about the sorted output uses
only properties that hold for any descending sort regardless of tie
order: the head carries a maximal score (`sortDesc_head_max`),
membership (`mem_sortDesc`), and non-emptiness. -/
def sortDesc {α : Type} : List (α × Nat) → List (α × Nat)
  | [] => []
  | x :: xs => insertDesc x (sortDesc xs)

/-- Each candidate paired with its token-overlap score
(`candidates["token_overlap"] = ...`). -/
def scoredCandidates (desc : List Nat) (cands : List GlRecord) :
    List (GlRecord × Nat) :=
  cands.map (fun g => (g, overlapScore desc g.memo_norm))

/-- `candidates.sort_values(...).iloc[0]` together with its score. -/
def bestCandidate (desc : List Nat) (cands : List GlRecord) :
    Option (GlRecord × Nat) :=
  (sortDesc (scoredCandidates desc cands)).head?

/-- Phase-2 decision for one bank record: skip on missing date or amount,
filter the window, pick the top-scoring candidate, and accept it iff
there was exactly one candidate or the top score is at least 1. -/
def toleranceDecision (b : BankRecord) (gl : List GlRecord) : Option Nat :=
  match b.txn_date, b.amount with
  | some d, some a =>
    let cands := tolCandidates d a gl
    if cands.isEmpty then none
    else
      match bestCandidate b.desc_norm cands with
      | none => none
      | some (best, sc) =>
        if cands.length = 1 ∨ 1 ≤ sc then some best.gl_id else none
  | _, _ => none

/-- The common loop of both matchers: walk the bank records in load
order; for each record still unmatched, ask `pick` for a GL id against
the current GL state; on success mark both sides and append a
`MatchResult` of type `mt`. -/
def runPhase (pick : BankRecord → List GlRecord → Option Nat) (mt : MatchType) :
    List BankRecord → List GlRecord →
    List BankRecord × List GlRecord × List MatchResult
  | [], gl => ([], gl, [])
  | b :: bs, gl =>
    if b.matched then
      let r := runPhase pick mt bs gl
      (b :: r.1, r.2)
    else
      match pick b gl with
      | some gid =>
        let r := runPhase pick mt bs (markGl gl gid)
        ({ b with matched := true } :: r.1, r.2.1,
          MatchResult.mk b.bank_id gid mt :: r.2.2)
      | none =>
        let r := runPhase pick mt bs gl
        (b :: r.1, r.2)

/-- `match_exact_amount(bank, gl)`. -/
def match_exact_amount (bank : List BankRecord) (gl : List GlRecord) :
    List BankRecord × List GlRecord × List MatchResult :=
  runPhase exactDecision MatchType.exact_amount bank gl

/-- `match_tolerance_date(bank, gl)`. -/
def match_tolerance_date (bank : List BankRecord) (gl : List GlRecord) :
    List BankRecord × List GlRecord × List MatchResult :=
  runPhase toleranceDecision MatchType.tolerance_date bank gl

/-- The engine as run by `main`: phase 1 then phase 2 on its outputs,
match lists concatenated in phase order. -/
def runEngine (bank : List BankRecord) (gl : List GlRecord) :
    List BankRecord × List GlRecord × List MatchResult :=
  let r1 := match_exact_amount bank gl
  let r2 := match_tolerance_date r1.1 r1.2.1
  (r2.1, r2.2.1, r1.2.2 ++ r2.2.2)

/-- `bank[bank["matched"] == False]` in `build_outputs` (the
normalization helper fields are merely projected away there). -/
def unmatched_bank (bank : List BankRecord) : List BankRecord :=
  bank.filter (fun b => !b.matched)

/-- `gl[gl["matched"] == False]` in `build_outputs`. -/
def unmatched_gl (gl : List GlRecord) : List GlRecord :=
  gl.filter (fun g => !g.matched)

/-- How a phase may change a bank record: untouched, or only its
`matched` flag raised. -/
def RaiseB (b b2 : BankRecord) : Prop :=
  b2 = b ∨ b2 = { b with matched := true }

/-- How a phase may change a GL record: untouched, or only its `matched`
flag raised. -/
def RaiseG (g g2 : GlRecord) : Prop :=
  g2 = g ∨ g2 = { g with matched := true }

/-- Soundness of a per-record decision function: a returned GL id always
belongs to a currently-unmatched GL record. -/
def PickSound (pick : BankRecord → List GlRecord → Option Nat) : Prop :=
  ∀ b gl gid, pick b gl = some gid →
    ∃ g ∈ gl, g.gl_id = gid ∧ g.matched = false

/-- Top token-overlap score of a scored candidate list. -/
def maxOf {α : Type} (l : List (α × Nat)) : Nat :=
  l.foldr (fun p m => max p.2 m) 0

end Reconcile

namespace Reconcile

/-! ## Step equations for the phase loop -/

theorem runPhase_nil (pick : BankRecord → List GlRecord → Option Nat)
    (mt : MatchType) (gl : List GlRecord) :
    runPhase pick mt [] gl = ([], gl, []) := rfl

theorem runPhase_cons_matched {b : BankRecord}
    (pick : BankRecord → List GlRecord → Option Nat) (mt : MatchType)
    (bs : List BankRecord) (gl : List GlRecord) (h : b.matched = true) :
    runPhase pick mt (b :: bs) gl =
      (b :: (runPhase pick mt bs gl).1, (runPhase pick mt bs gl).2) := by
  simp [runPhase, h]

theorem runPhase_cons_pick {b : BankRecord} {gid : Nat}
    {pick : BankRecord → List GlRecord → Option Nat} {gl : List GlRecord}
    (mt : MatchType) (bs : List BankRecord)
    (h : b.matched = false) (hp : pick b gl = some gid) :
    runPhase pick mt (b :: bs) gl =
      ({ b with matched := true } :: (runPhase pick mt bs (markGl gl gid)).1,
       (runPhase pick mt bs (markGl gl gid)).2.1,
       MatchResult.mk b.bank_id gid mt ::
         (runPhase pick mt bs (markGl gl gid)).2.2) := by
  simp [runPhase, h, hp]

theorem runPhase_cons_skip {b : BankRecord}
    {pick : BankRecord → List GlRecord → Option Nat} {gl : List GlRecord}
    (mt : MatchType) (bs : List BankRecord)
    (h : b.matched = false) (hp : pick b gl = none) :
    runPhase pick mt (b :: bs) gl =
      (b :: (runPhase pick mt bs gl).1, (runPhase pick mt bs gl).2) := by
  simp [runPhase, h, hp]

/-! ## markGl lemmas -/

theorem markGl_mem {gl : List GlRecord} {gid : Nat} {g2 : GlRecord}
    (h : g2 ∈ markGl gl gid) :
    ∃ g ∈ gl, g2 = g ∨ g2 = { g with matched := true } := by
  rcases List.mem_map.mp h with ⟨g, hg, he⟩
  refine ⟨g, hg, ?_⟩
  by_cases hid : g.gl_id = gid
  · right; rw [← he]; simp [hid]
  · left; rw [← he]; simp [hid]

theorem markGl_marks {gl : List GlRecord} {gid : Nat} {g2 : GlRecord}
    (h : g2 ∈ markGl gl gid) (hid : g2.gl_id = gid) : g2.matched = true := by
  rcases List.mem_map.mp h with ⟨g, _, he⟩
  by_cases hgi : g.gl_id = gid
  · rw [← he]; simp [hgi]
  · exfalso
    apply hgi
    rw [← hid, ← he]
    simp [hgi]

theorem markGl_mem_of_mem {gl : List GlRecord} {gid : Nat} {g : GlRecord}
    (h : g ∈ gl) :
    (g.gl_id = gid → { g with matched := true } ∈ markGl gl gid) ∧
    (g.gl_id ≠ gid → g ∈ markGl gl gid) := by
  constructor
  · intro hid
    exact List.mem_map.mpr ⟨g, h, by simp [markGl, hid]⟩
  · intro hid
    exact List.mem_map.mpr ⟨g, h, by simp [markGl, hid]⟩

/-! ## Generic Forall₂ helpers -/

theorem forall2_mem_right {α β : Type} {R : α → β → Prop}
    {l1 : List α} {l2 : List β} (h : List.Forall₂ R l1 l2) {b : β}
    (hb : b ∈ l2) : ∃ a ∈ l1, R a b := by
  induction h with
  | nil => cases hb
  | cons hr _ ih =>
    rcases List.mem_cons.mp hb with he | hm
    · exact ⟨_, List.mem_cons_self _ _, he ▸ hr⟩
    · rcases ih hm with ⟨a, ha, har⟩
      exact ⟨a, List.mem_cons_of_mem _ ha, har⟩

theorem forall2_mem_left {α β : Type} {R : α → β → Prop}
    {l1 : List α} {l2 : List β} (h : List.Forall₂ R l1 l2) {a : α}
    (ha : a ∈ l1) : ∃ b ∈ l2, R a b := by
  induction h with
  | nil => cases ha
  | cons hr _ ih =>
    rcases List.mem_cons.mp ha with he | hm
    · exact ⟨_, List.mem_cons_self _ _, he ▸ hr⟩
    · rcases ih hm with ⟨b, hb, hbr⟩
      exact ⟨b, List.mem_cons_of_mem _ hb, hbr⟩

theorem forall2_comp {α β γ : Type} {R : α → β → Prop} {S : β → γ → Prop}
    {T : α → γ → Prop} (hc : ∀ a b c, R a b → S b c → T a c) :
    ∀ {l1 : List α} {l2 : List β} {l3 : List γ},
      List.Forall₂ R l1 l2 → List.Forall₂ S l2 l3 → List.Forall₂ T l1 l3 := by
  intro l1 l2 l3 h1 h2
  induction h1 generalizing l3 with
  | nil =>
    cases h2
    exact List.Forall₂.nil
  | cons hr _ ih =>
    cases h2 with
    | cons hs ht => exact List.Forall₂.cons (hc _ _ _ hr hs) (ih ht)

theorem forall2_map_self {α : Type} (f : α → α) (l : List α) :
    List.Forall₂ (fun a b => b = f a) l (l.map f) := by
  induction l with
  | nil => exact List.Forall₂.nil
  | cons a l ih => exact List.Forall₂.cons rfl ih

end Reconcile

namespace Reconcile

/-! ## Phase invariants -/

theorem RaiseB.bank_id {b b2 : BankRecord} (h : RaiseB b b2) :
    b2.bank_id = b.bank_id := by
  rcases h with h | h <;> rw [h]

theorem RaiseG.gl_id {g g2 : GlRecord} (h : RaiseG g g2) :
    g2.gl_id = g.gl_id := by
  rcases h with h | h <;> rw [h]

theorem RaiseG.mono {g g2 : GlRecord} (h : RaiseG g g2)
    (hm : g.matched = true) : g2.matched = true := by
  rcases h with h | h <;> simp [h, hm]

theorem RaiseG.trans {g1 g2 g3 : GlRecord} (h1 : RaiseG g1 g2)
    (h2 : RaiseG g2 g3) : RaiseG g1 g3 := by
  rcases h1 with h1 | h1 <;> rcases h2 with h2 | h2 <;>
    simp [RaiseG, h1 ▸ h2]

theorem markGl_raise (gl : List GlRecord) (gid : Nat) :
    List.Forall₂ RaiseG gl (markGl gl gid) := by
  have h := forall2_map_self
    (fun g => if g.gl_id = gid then { g with matched := true } else g) gl
  refine h.imp ?_
  intro g g2 he
  by_cases hid : g.gl_id = gid
  · right; rw [he]; simp [hid]
  · left; rw [he]; simp [hid]

/-- The bank output of a phase is the bank input with some `matched`
flags raised, positionally. -/
theorem runPhase_bank_raise
    (pick : BankRecord → List GlRecord → Option Nat) (mt : MatchType) :
    ∀ (bs : List BankRecord) (gl : List GlRecord),
      List.Forall₂ RaiseB bs (runPhase pick mt bs gl).1 := by
  intro bs
  induction bs with
  | nil => intro gl; exact List.Forall₂.nil
  | cons b bs ih =>
    intro gl
    cases hm : b.matched with
    | true =>
      rw [runPhase_cons_matched pick mt bs gl hm]
      exact List.Forall₂.cons (Or.inl rfl) (ih gl)
    | false =>
      cases hp : pick b gl with
      | some gid =>
        rw [runPhase_cons_pick mt bs hm hp]
        exact List.Forall₂.cons (Or.inr rfl) (ih (markGl gl gid))
      | none =>
        rw [runPhase_cons_skip mt bs hm hp]
        exact List.Forall₂.cons (Or.inl rfl) (ih gl)

/-- The GL output of a phase is the GL input with some `matched` flags
raised, positionally. -/
theorem runPhase_gl_raise
    (pick : BankRecord → List GlRecord → Option Nat) (mt : MatchType) :
    ∀ (bs : List BankRecord) (gl : List GlRecord),
      List.Forall₂ RaiseG gl (runPhase pick mt bs gl).2.1 := by
  intro bs
  induction bs with
  | nil =>
    intro gl
    exact List.forall₂_same.mpr (fun g _ => Or.inl rfl)
  | cons b bs ih =>
    intro gl
    cases hm : b.matched with
    | true =>
      rw [runPhase_cons_matched pick mt bs gl hm]
      exact ih gl
    | false =>
      cases hp : pick b gl with
      | some gid =>
        rw [runPhase_cons_pick mt bs hm hp]
        exact @forall2_comp GlRecord GlRecord GlRecord RaiseG RaiseG RaiseG
          (fun _ _ _ h1 h2 => RaiseG.trans h1 h2) _ _ _
          (markGl_raise gl gid) (ih (markGl gl gid))
      | none =>
        rw [runPhase_cons_skip mt bs hm hp]
        exact ih gl

/-- Origin of every emitted match: its bank id comes from a bank record
that was unmatched when the phase started (and satisfied whatever `pick`
requires), and its GL id from a GL record unmatched when the phase
started (satisfying `Pg`, for any `Pg` not referring to the flag). -/
theorem runPhase_matches_origin
    {pick : BankRecord → List GlRecord → Option Nat} {mt : MatchType}
    (Pb : BankRecord → Prop) (Pg : GlRecord → Prop)
    (hb : ∀ b gl gid, pick b gl = some gid → Pb b)
    (hg : ∀ b gl gid, pick b gl = some gid →
      ∃ g ∈ gl, g.gl_id = gid ∧ g.matched = false ∧ Pg g) :
    ∀ (bs : List BankRecord) (gl : List GlRecord) (m : MatchResult),
      m ∈ (runPhase pick mt bs gl).2.2 →
      (∃ b ∈ bs, b.bank_id = m.bank_id ∧ b.matched = false ∧ Pb b) ∧
      (∃ g ∈ gl, g.gl_id = m.gl_id ∧ g.matched = false ∧ Pg g) := by
  intro bs
  induction bs with
  | nil =>
    intro gl m hm
    simp [runPhase_nil] at hm
  | cons b bs ih =>
    intro gl m hm
    cases hmb : b.matched with
    | true =>
      rw [runPhase_cons_matched pick mt bs gl hmb] at hm
      rcases ih gl m hm with ⟨⟨b0, hb0, he⟩, hgl⟩
      exact ⟨⟨b0, List.mem_cons_of_mem _ hb0, he⟩, hgl⟩
    | false =>
      cases hp : pick b gl with
      | some gid =>
        rw [runPhase_cons_pick mt bs hmb hp] at hm
        rcases List.mem_cons.mp hm with he | hm2
        · subst he
          refine ⟨⟨b, List.mem_cons_self _ _, rfl, hmb, hb b gl gid hp⟩, ?_⟩
          rcases hg b gl gid hp with ⟨g, hgm, hgi, hgmat, hgp⟩
          exact ⟨g, hgm, hgi, hgmat, hgp⟩
        · rcases ih (markGl gl gid) m hm2 with ⟨⟨b0, hb0, he0⟩, ⟨g2, hg2, hgi2, hgm2, hgp2⟩⟩
          refine ⟨⟨b0, List.mem_cons_of_mem _ hb0, he0⟩, ?_⟩
          rcases markGl_mem hg2 with ⟨g, hg, hor⟩
          rcases hor with hor | hor
          · exact ⟨g, hg, hor ▸ hgi2, hor ▸ hgm2, hor ▸ hgp2⟩
          · exfalso
            rw [hor] at hgm2
            simp at hgm2
      | none =>
        rw [runPhase_cons_skip mt bs hmb hp] at hm
        rcases ih gl m hm with ⟨⟨b0, hb0, he⟩, hgl⟩
        exact ⟨⟨b0, List.mem_cons_of_mem _ hb0, he⟩, hgl⟩

end Reconcile

namespace Reconcile

theorem forall2_map_eq {α β γ : Type} {R : α → β → Prop}
    {l1 : List α} {l2 : List β} (h : List.Forall₂ R l1 l2)
    (f : α → γ) (g : β → γ) (hf : ∀ a b, R a b → g b = f a) :
    l2.map g = l1.map f := by
  induction h with
  | nil => rfl
  | cons hr _ ih => simp [ih, hf _ _ hr]

/-- A phase permutes no records: the bank ids of the output are the bank
ids of the input, in order. -/
theorem runPhase_bank_ids
    (pick : BankRecord → List GlRecord → Option Nat) (mt : MatchType)
    (bs : List BankRecord) (gl : List GlRecord) :
    (runPhase pick mt bs gl).1.map BankRecord.bank_id =
      bs.map BankRecord.bank_id :=
  forall2_map_eq (runPhase_bank_raise pick mt bs gl) _ _
    (fun _ _ h => h.bank_id)

/-- Same for the GL side. -/
theorem runPhase_gl_ids
    (pick : BankRecord → List GlRecord → Option Nat) (mt : MatchType)
    (bs : List BankRecord) (gl : List GlRecord) :
    (runPhase pick mt bs gl).2.1.map GlRecord.gl_id =
      gl.map GlRecord.gl_id :=
  forall2_map_eq (runPhase_gl_raise pick mt bs gl) _ _
    (fun _ _ h => h.gl_id)

/-- Once every GL record carrying an id is matched, it stays matched
through a phase. -/
theorem runPhase_gl_preserves_marked
    {pick : BankRecord → List GlRecord → Option Nat} {mt : MatchType}
    {bs : List BankRecord} {gl : List GlRecord} {gid : Nat}
    (hAll : ∀ g ∈ gl, g.gl_id = gid → g.matched = true) :
    ∀ g2 ∈ (runPhase pick mt bs gl).2.1, g2.gl_id = gid →
      g2.matched = true := by
  intro g2 hg2 hid
  rcases forall2_mem_right (runPhase_gl_raise pick mt bs gl) hg2
    with ⟨g, hg, hr⟩
  exact hr.mono (hAll g hg (by rw [← hr.gl_id]; exact hid))

/-- Every GL id in the match list of a phase is marked matched in the
GL output of the phase. -/
theorem runPhase_matches_glMarked
    {pick : BankRecord → List GlRecord → Option Nat} {mt : MatchType} :
    ∀ (bs : List BankRecord) (gl : List GlRecord) (m : MatchResult),
      m ∈ (runPhase pick mt bs gl).2.2 →
      ∀ g2 ∈ (runPhase pick mt bs gl).2.1, g2.gl_id = m.gl_id →
        g2.matched = true := by
  intro bs
  induction bs with
  | nil => intro gl m hm; simp [runPhase_nil] at hm
  | cons b bs ih =>
    intro gl m hm
    cases hmb : b.matched with
    | true =>
      rw [runPhase_cons_matched pick mt bs gl hmb] at hm ⊢
      exact ih gl m hm
    | false =>
      cases hp : pick b gl with
      | some gid =>
        rw [runPhase_cons_pick mt bs hmb hp] at hm ⊢
        rcases List.mem_cons.mp hm with he | hm2
        · subst he
          intro g2 hg2 hid
          exact runPhase_gl_preserves_marked
            (fun g hg hgi => markGl_marks hg hgi) g2 hg2 hid
        · exact ih (markGl gl gid) m hm2
      | none =>
        rw [runPhase_cons_skip mt bs hmb hp] at hm ⊢
        exact ih gl m hm

/-- Every bank id in the match list of a phase is marked matched in the
bank output of the phase. -/
theorem runPhase_matches_bankMarked
    {pick : BankRecord → List GlRecord → Option Nat} {mt : MatchType} :
    ∀ (bs : List BankRecord) (gl : List GlRecord) (m : MatchResult),
      m ∈ (runPhase pick mt bs gl).2.2 →
      ∃ b2 ∈ (runPhase pick mt bs gl).1,
        b2.bank_id = m.bank_id ∧ b2.matched = true := by
  intro bs
  induction bs with
  | nil => intro gl m hm; simp [runPhase_nil] at hm
  | cons b bs ih =>
    intro gl m hm
    cases hmb : b.matched with
    | true =>
      rw [runPhase_cons_matched pick mt bs gl hmb] at hm ⊢
      rcases ih gl m hm with ⟨b2, hb2, he⟩
      exact ⟨b2, List.mem_cons_of_mem _ hb2, he⟩
    | false =>
      cases hp : pick b gl with
      | some gid =>
        rw [runPhase_cons_pick mt bs hmb hp] at hm ⊢
        rcases List.mem_cons.mp hm with he | hm2
        · subst he
          exact ⟨{ b with matched := true }, List.mem_cons_self _ _, rfl, rfl⟩
        · rcases ih (markGl gl gid) m hm2 with ⟨b2, hb2, he⟩
          exact ⟨b2, List.mem_cons_of_mem _ hb2, he⟩
      | none =>
        rw [runPhase_cons_skip mt bs hmb hp] at hm ⊢
        rcases ih gl m hm with ⟨b2, hb2, he⟩
        exact ⟨b2, List.mem_cons_of_mem _ hb2, he⟩

/-- Specialization of the origin lemma with trivial side conditions. -/
theorem runPhase_matches_origin0
    {pick : BankRecord → List GlRecord → Option Nat} {mt : MatchType}
    (hp : PickSound pick) (bs : List BankRecord) (gl : List GlRecord)
    (m : MatchResult) (hm : m ∈ (runPhase pick mt bs gl).2.2) :
    (∃ b ∈ bs, b.bank_id = m.bank_id ∧ b.matched = false) ∧
    (∃ g ∈ gl, g.gl_id = m.gl_id ∧ g.matched = false) := by
  rcases runPhase_matches_origin (fun _ => True) (fun _ => True)
    (fun _ _ _ _ => trivial)
    (fun b gl gid hpk => by
      rcases hp b gl gid hpk with ⟨g, hg, hgi, hgm⟩
      exact ⟨g, hg, hgi, hgm, trivial⟩)
    bs gl m hm with ⟨⟨b0, hb0, he0, hm0, _⟩, ⟨g0, hg0, hgi0, hgm0, _⟩⟩
  exact ⟨⟨b0, hb0, he0, hm0⟩, ⟨g0, hg0, hgi0, hgm0⟩⟩

/-- No GL id is reused inside one phase. -/
theorem runPhase_matches_gl_nodup
    {pick : BankRecord → List GlRecord → Option Nat} {mt : MatchType}
    (hp : PickSound pick) :
    ∀ (bs : List BankRecord) (gl : List GlRecord),
      ((runPhase pick mt bs gl).2.2.map MatchResult.gl_id).Nodup := by
  intro bs
  induction bs with
  | nil => intro gl; simp [runPhase_nil]
  | cons b bs ih =>
    intro gl
    cases hmb : b.matched with
    | true =>
      rw [runPhase_cons_matched pick mt bs gl hmb]
      exact ih gl
    | false =>
      cases hpk : pick b gl with
      | some gid =>
        rw [runPhase_cons_pick mt bs hmb hpk]
        simp only [List.map_cons, List.nodup_cons]
        refine ⟨?_, ih (markGl gl gid)⟩
        intro hmem
        rcases List.mem_map.mp hmem with ⟨m, hm, hid⟩
        rcases (runPhase_matches_origin0 hp bs (markGl gl gid) m hm).2
          with ⟨g, hg, hgi, hgm⟩
        rw [markGl_marks hg (by rw [hgi, hid])] at hgm
        cases hgm
      | none =>
        rw [runPhase_cons_skip mt bs hmb hpk]
        exact ih gl

/-- No bank id is reused inside one phase (given unique input bank ids). -/
theorem runPhase_matches_bank_nodup
    {pick : BankRecord → List GlRecord → Option Nat} {mt : MatchType}
    (hp : PickSound pick) :
    ∀ (bs : List BankRecord) (gl : List GlRecord),
      (bs.map BankRecord.bank_id).Nodup →
      ((runPhase pick mt bs gl).2.2.map MatchResult.bank_id).Nodup := by
  intro bs
  induction bs with
  | nil => intro gl _; simp [runPhase_nil]
  | cons b bs ih =>
    intro gl hnd
    rw [List.map_cons, List.nodup_cons] at hnd
    cases hmb : b.matched with
    | true =>
      rw [runPhase_cons_matched pick mt bs gl hmb]
      exact ih gl hnd.2
    | false =>
      cases hpk : pick b gl with
      | some gid =>
        rw [runPhase_cons_pick mt bs hmb hpk]
        simp only [List.map_cons, List.nodup_cons]
        refine ⟨?_, ih (markGl gl gid) hnd.2⟩
        intro hmem
        rcases List.mem_map.mp hmem with ⟨m, hm, hid⟩
        rcases (runPhase_matches_origin0 hp bs (markGl gl gid) m hm).1
          with ⟨b0, hb0, he0, _⟩
        exact hnd.1 (List.mem_map.mpr ⟨b0, hb0, by rw [he0, hid]⟩)
      | none =>
        rw [runPhase_cons_skip mt bs hmb hpk]
        exact ih gl hnd.2

end Reconcile

namespace Reconcile

/-! ## The descending sort and its head -/

theorem maxOf_cons {α : Type} (x : α × Nat) (xs : List (α × Nat)) :
    maxOf (x :: xs) = max x.2 (maxOf xs) := rfl

theorem mem_insertDesc {α : Type} {p x : α × Nat} :
    ∀ {l : List (α × Nat)}, p ∈ insertDesc x l → p = x ∨ p ∈ l := by
  intro l
  induction l with
  | nil => intro h; simpa [insertDesc] using h
  | cons y ys ih =>
    intro h
    rw [insertDesc] at h
    by_cases hle : y.2 ≤ x.2
    · rw [if_pos hle] at h
      rcases List.mem_cons.mp h with he | hm
      · exact Or.inl he
      · exact Or.inr hm
    · rw [if_neg hle] at h
      rcases List.mem_cons.mp h with he | hm
      · exact Or.inr (he ▸ List.mem_cons_self _ _)
      · rcases ih hm with he | hm2
        · exact Or.inl he
        · exact Or.inr (List.mem_cons_of_mem _ hm2)

theorem mem_sortDesc {α : Type} {p : α × Nat} :
    ∀ {l : List (α × Nat)}, p ∈ sortDesc l → p ∈ l := by
  intro l
  induction l with
  | nil => intro h; simp [sortDesc] at h
  | cons x xs ih =>
    intro h
    rw [sortDesc] at h
    rcases mem_insertDesc h with he | hm
    · exact he ▸ List.mem_cons_self _ _
    · exact List.mem_cons_of_mem _ (ih hm)

/-- The first element of the sorted candidate list carries the top
score. -/
theorem sortDesc_head_max {α : Type} :
    ∀ (l : List (α × Nat)), l ≠ [] →
      ∃ y ys, sortDesc l = y :: ys ∧ y.2 = maxOf l := by
  intro l
  induction l with
  | nil => intro h; exact absurd rfl h
  | cons x xs ih =>
    intro _
    by_cases hxs : xs = []
    · subst hxs
      refine ⟨x, [], ?_, ?_⟩
      · simp [sortDesc, insertDesc]
      · simp [maxOf]
    · rcases ih hxs with ⟨y, ys, hsx, hysc⟩
      rw [sortDesc, hsx, insertDesc]
      by_cases hle : y.2 ≤ x.2
      · refine ⟨x, y :: ys, by rw [if_pos hle], ?_⟩
        rw [maxOf_cons, max_eq_left (hysc ▸ hle)]
      · refine ⟨y, insertDesc x ys, by rw [if_neg hle], ?_⟩
        rw [maxOf_cons, max_eq_right (hysc ▸ le_of_not_le hle), hysc]

/-! ## Candidate pools and decisions -/

theorem exactCandidates_mem {b : BankRecord} {gl : List GlRecord}
    {g : GlRecord} :
    g ∈ exactCandidates b gl ↔
      g ∈ gl ∧ g.matched = false ∧
        ∃ qa, g.amount = some qa ∧ b.amount = some qa := by
  rw [exactCandidates, List.mem_filter]
  constructor
  · rintro ⟨hg, hp⟩
    rw [Bool.and_eq_true, Bool.not_eq_true'] at hp
    refine ⟨hg, hp.1, ?_⟩
    have := hp.2
    cases hga : g.amount with
    | none => rw [hga] at this; cases this
    | some qa =>
      cases hba : b.amount with
      | none => rw [hga, hba] at this; cases this
      | some qb =>
        rw [hga, hba] at this
        simp only [amtEq, decide_eq_true_eq] at this
        exact ⟨qa, rfl, by rw [this]⟩
  · rintro ⟨hg, hm, qa, hga, hba⟩
    refine ⟨hg, ?_⟩
    rw [Bool.and_eq_true, Bool.not_eq_true']
    exact ⟨hm, by rw [hga, hba]; simp [amtEq]⟩

theorem tolCandidates_mem {d : Int} {a : ℚ} {gl : List GlRecord}
    {g : GlRecord} :
    g ∈ tolCandidates d a gl ↔
      g ∈ gl ∧ g.matched = false ∧
        (∃ pd, g.posting_date = some pd ∧
          d - DATE_WINDOW_DAYS ≤ pd ∧ pd ≤ d + DATE_WINDOW_DAYS) ∧
        (∃ ga, g.amount = some ga ∧
          a - TOLERANCE ≤ ga ∧ ga ≤ a + TOLERANCE) := by
  rw [tolCandidates, List.mem_filter]
  constructor
  · rintro ⟨hg, hp⟩
    rw [Bool.and_eq_true, Bool.and_eq_true, Bool.not_eq_true'] at hp
    refine ⟨hg, hp.1.1, ?_, ?_⟩
    · have := hp.1.2
      cases hgd : g.posting_date with
      | none => rw [hgd] at this; cases this
      | some pd =>
        rw [hgd] at this
        simp only [dateInWindow, Bool.and_eq_true, decide_eq_true_eq] at this
        exact ⟨pd, rfl, this.1, this.2⟩
    · have := hp.2
      cases hga : g.amount with
      | none => rw [hga] at this; cases this
      | some ga =>
        rw [hga] at this
        simp only [amtBetween, Bool.and_eq_true, decide_eq_true_eq] at this
        exact ⟨ga, rfl, this.1, this.2⟩
  · rintro ⟨hg, hm, ⟨pd, hgd, hd1, hd2⟩, ⟨ga, hga, ha1, ha2⟩⟩
    refine ⟨hg, ?_⟩
    rw [Bool.and_eq_true, Bool.and_eq_true, Bool.not_eq_true']
    refine ⟨⟨hm, ?_⟩, ?_⟩
    · rw [hgd]; simp [dateInWindow, hd1, hd2]
    · rw [hga]; simp [amtBetween, ha1, ha2]

theorem bestCandidate_some {desc : List Nat} {cands : List GlRecord}
    {g : GlRecord} {sc : Nat}
    (h : bestCandidate desc cands = some (g, sc)) :
    g ∈ cands ∧ sc = overlapScore desc g.memo_norm := by
  rw [bestCandidate] at h
  have hm : (g, sc) ∈ sortDesc (scoredCandidates desc cands) :=
    List.mem_of_mem_head? h
  have hm2 : (g, sc) ∈ scoredCandidates desc cands := mem_sortDesc hm
  rcases List.mem_map.mp hm2 with ⟨g0, hg0, he⟩
  rcases Prod.mk.injEq .. ▸ he with ⟨he1, he2⟩
  exact ⟨he1 ▸ hg0, by rw [← he2, he1]⟩

theorem bestCandidate_isSome {desc : List Nat} {cands : List GlRecord}
    (h : cands ≠ []) : (bestCandidate desc cands).isSome = true := by
  rw [bestCandidate]
  have hsc : scoredCandidates desc cands ≠ [] := by
    rw [scoredCandidates]
    simpa using h
  rcases sortDesc_head_max _ hsc with ⟨y, ys, hsx, _⟩
  rw [hsx]
  rfl

end Reconcile

namespace Reconcile

theorem exactDecision_eq_some {b : BankRecord} {gl : List GlRecord}
    {g : GlRecord} (h : exactCandidates b gl = [g]) :
    exactDecision b gl = some g.gl_id := by
  rw [exactDecision, h]

theorem exactDecision_eq_none {b : BankRecord} {gl : List GlRecord}
    (h : (exactCandidates b gl).length ≠ 1) :
    exactDecision b gl = none := by
  rw [exactDecision]
  cases hc : exactCandidates b gl with
  | nil => rfl
  | cons g t =>
    cases t with
    | nil => exact absurd (by rw [hc]; rfl) h
    | cons g2 t2 => rfl

theorem exactDecision_some_inv {b : BankRecord} {gl : List GlRecord}
    {gid : Nat} (h : exactDecision b gl = some gid) :
    ∃ g, exactCandidates b gl = [g] ∧ gid = g.gl_id := by
  rw [exactDecision] at h
  cases hc : exactCandidates b gl with
  | nil => rw [hc] at h; cases h
  | cons g t =>
    cases t with
    | nil =>
      rw [hc] at h
      exact ⟨g, rfl, (Option.some.injEq .. ▸ h).symm⟩
    | cons g2 t2 => rw [hc] at h; cases h

theorem exactDecision_sound : PickSound exactDecision := by
  intro b gl gid h
  rcases exactDecision_some_inv h with ⟨g, hc, he⟩
  have hg : g ∈ exactCandidates b gl := by
    rw [hc]; exact List.mem_cons_self _ _
  rcases exactCandidates_mem.mp hg with ⟨hgl, hm, _⟩
  exact ⟨g, hgl, he.symm, hm⟩

/-- Inversion for an accepted phase-1 match: the bank amount parsed and
equals the GL amount, which also parsed. -/
theorem exactDecision_some_amounts {b : BankRecord} {gl : List GlRecord}
    {gid : Nat} (h : exactDecision b gl = some gid) :
    ∃ qa, b.amount = some qa ∧
      ∃ g ∈ gl, g.gl_id = gid ∧ g.matched = false ∧ g.amount = some qa := by
  rcases exactDecision_some_inv h with ⟨g, hc, he⟩
  have hg : g ∈ exactCandidates b gl := by
    rw [hc]; exact List.mem_cons_self _ _
  rcases exactCandidates_mem.mp hg with ⟨hgl, hm, qa, hga, hba⟩
  exact ⟨qa, hba, g, hgl, he.symm, hm, hga⟩

theorem toleranceDecision_missing {b : BankRecord} {gl : List GlRecord}
    (h : b.txn_date = none ∨ b.amount = none) :
    toleranceDecision b gl = none := by
  rcases h with h | h
  · cases hb : b.amount <;> simp [toleranceDecision, h, hb]
  · cases hb : b.txn_date <;> simp [toleranceDecision, h, hb]

theorem toleranceDecision_empty {b : BankRecord} {gl : List GlRecord}
    {d : Int} {a : ℚ} (hd : b.txn_date = some d) (ha : b.amount = some a)
    (h : tolCandidates d a gl = []) : toleranceDecision b gl = none := by
  simp [toleranceDecision, hd, ha, h]

theorem toleranceDecision_eq_best {b : BankRecord} {gl : List GlRecord}
    {d : Int} {a : ℚ} {best : GlRecord} {sc : Nat}
    (hd : b.txn_date = some d) (ha : b.amount = some a)
    (hbc : bestCandidate b.desc_norm (tolCandidates d a gl) = some (best, sc)) :
    toleranceDecision b gl =
      if (tolCandidates d a gl).length = 1 ∨ 1 ≤ sc then some best.gl_id
      else none := by
  have hne : (tolCandidates d a gl).isEmpty = false := by
    cases hcl : tolCandidates d a gl with
    | nil => rw [hcl] at hbc; simp [bestCandidate, scoredCandidates, sortDesc] at hbc
    | cons u us => rfl
  simp [toleranceDecision, hd, ha, hne, hbc]

/-- Inversion for an accepted phase-2 match: all four parse-dependent
fields were present and the GL record was an unmatched candidate. -/
theorem toleranceDecision_some_inv {b : BankRecord} {gl : List GlRecord}
    {gid : Nat} (h : toleranceDecision b gl = some gid) :
    ∃ d a, b.txn_date = some d ∧ b.amount = some a ∧
      ∃ g ∈ tolCandidates d a gl, g.gl_id = gid := by
  cases hd : b.txn_date with
  | none => rw [toleranceDecision_missing (Or.inl hd)] at h; cases h
  | some d =>
    cases ha : b.amount with
    | none => rw [toleranceDecision_missing (Or.inr ha)] at h; cases h
    | some a =>
      cases hbc : bestCandidate b.desc_norm (tolCandidates d a gl) with
      | none =>
        cases hcl : tolCandidates d a gl with
        | nil => rw [toleranceDecision_empty hd ha hcl] at h; cases h
        | cons u us =>
          exfalso
          have := @bestCandidate_isSome b.desc_norm
            (tolCandidates d a gl) (by rw [hcl]; simp)
          rw [hbc] at this
          cases this
      | some p =>
        obtain ⟨best, sc⟩ := p
        rw [toleranceDecision_eq_best hd ha hbc] at h
        by_cases hacc : (tolCandidates d a gl).length = 1 ∨ 1 ≤ sc
        · rw [if_pos hacc] at h
          refine ⟨d, a, rfl, rfl, best, (bestCandidate_some hbc).1, ?_⟩
          exact (Option.some.injEq .. ▸ h)
        · rw [if_neg hacc] at h; cases h

theorem toleranceDecision_sound : PickSound toleranceDecision := by
  intro b gl gid h
  rcases toleranceDecision_some_inv h with ⟨d, a, _, _, g, hg, hgi⟩
  rcases tolCandidates_mem.mp hg with ⟨hgl, hm, _, _⟩
  exact ⟨g, hgl, hgi, hm⟩

end Reconcile

namespace Reconcile

theorem forall2_imp_mem {α β : Type} {R S : α → β → Prop} :
    ∀ {l1 : List α} {l2 : List β}, List.Forall₂ R l1 l2 →
      (∀ a ∈ l1, ∀ b, R a b → S a b) → List.Forall₂ S l1 l2 := by
  intro l1 l2 h
  induction h with
  | nil => intro _; exact List.Forall₂.nil
  | cons hr ht ih =>
    intro himp
    exact List.Forall₂.cons
      (himp _ (List.mem_cons_self _ _) _ hr)
      (ih (fun a ha b hab => himp a (List.mem_cons_of_mem _ ha) b hab))

theorem bank_eta_matched {b : BankRecord} (h : b.matched = true) :
    ({ b with matched := true } : BankRecord) = b := by
  cases b
  simp_all

/-- Pointwise characterization of the bank flags after one phase, given
unique bank ids: each output record is its input record with the flag
ORed with membership of its id in the match list of the phase. -/
theorem runPhase_bank_flags
    {pick : BankRecord → List GlRecord → Option Nat} {mt : MatchType}
    (hp : PickSound pick) :
    ∀ (bs : List BankRecord) (gl : List GlRecord),
      (bs.map BankRecord.bank_id).Nodup →
      List.Forall₂ (fun b b2 => b2 =
        { b with matched := b.matched ||
            decide (b.bank_id ∈
              (runPhase pick mt bs gl).2.2.map MatchResult.bank_id) })
        bs (runPhase pick mt bs gl).1 := by
  intro bs
  induction bs with
  | nil => intro gl _; exact List.Forall₂.nil
  | cons b bs ih =>
    intro gl hnd
    rw [List.map_cons, List.nodup_cons] at hnd
    cases hmb : b.matched with
    | true =>
      rw [runPhase_cons_matched pick mt bs gl hmb]
      refine List.Forall₂.cons ?_ (ih gl hnd.2)
      rw [hmb, Bool.true_or]
      exact (bank_eta_matched hmb).symm
    | false =>
      cases hpk : pick b gl with
      | some gid =>
        rw [runPhase_cons_pick mt bs hmb hpk]
        refine List.Forall₂.cons ?_ ?_
        · rw [hmb]
          simp
        · refine forall2_imp_mem (ih (markGl gl gid) hnd.2) ?_
          intro b0 hb0 b2 hr
          have hne : b0.bank_id ≠ b.bank_id := by
            intro he
            exact hnd.1 (List.mem_map.mpr ⟨b0, hb0, he⟩)
          rw [hr]
          simp [hne]
      | none =>
        rw [runPhase_cons_skip mt bs hmb hpk]
        refine List.Forall₂.cons ?_ (ih gl hnd.2)
        have hnm : b.bank_id ∉
            (runPhase pick mt bs gl).2.2.map MatchResult.bank_id := by
          intro hmem
          rcases List.mem_map.mp hmem with ⟨m, hm, hid⟩
          rcases (runPhase_matches_origin0 hp bs gl m hm).1
            with ⟨b0, hb0, he0, _⟩
          exact hnd.1 (List.mem_map.mpr ⟨b0, hb0, by rw [he0, hid]⟩)
        rw [hmb]
        cases b
        simp_all

/-- Pointwise characterization of the GL flags after one phase: each
output record is its input record with the flag ORed with membership of
its id in the match list of the phase.  Uniqueness of GL ids is not needed
because a match marks every GL record carrying its id. -/
theorem runPhase_gl_flags
    {pick : BankRecord → List GlRecord → Option Nat} {mt : MatchType} :
    ∀ (bs : List BankRecord) (gl : List GlRecord),
      List.Forall₂ (fun g g2 => g2 =
        { g with matched := g.matched ||
            decide (g.gl_id ∈
              (runPhase pick mt bs gl).2.2.map MatchResult.gl_id) })
        gl (runPhase pick mt bs gl).2.1 := by
  intro bs
  induction bs with
  | nil =>
    intro gl
    rw [runPhase_nil]
    refine List.forall₂_same.mpr ?_
    intro g _
    cases g
    simp
  | cons b bs ih =>
    intro gl
    cases hmb : b.matched with
    | true =>
      rw [runPhase_cons_matched pick mt bs gl hmb]
      exact ih gl
    | false =>
      cases hpk : pick b gl with
      | some gid =>
        rw [runPhase_cons_pick mt bs hmb hpk]
        have hmark : List.Forall₂
            (fun g g2 => g2 =
              if g.gl_id = gid then { g with matched := true } else g)
            gl (markGl gl gid) := forall2_map_self _ gl
        refine @forall2_comp GlRecord GlRecord GlRecord _ _ _
          ?_ _ _ _ hmark (ih (markGl gl gid))
        intro g g1 g2 h1 h2
        rw [h2, h1]
        by_cases hid : g.gl_id = gid
        · simp [hid]
        · simp [hid]
      | none =>
        rw [runPhase_cons_skip mt bs hmb hpk]
        exact ih gl

end Reconcile

namespace Reconcile

theorem match_exact_amount_def (bank : List BankRecord) (gl : List GlRecord) :
    match_exact_amount bank gl =
      runPhase exactDecision MatchType.exact_amount bank gl := rfl

theorem match_tolerance_date_def (bank : List BankRecord) (gl : List GlRecord) :
    match_tolerance_date bank gl =
      runPhase toleranceDecision MatchType.tolerance_date bank gl := rfl

theorem runEngine_def (bank : List BankRecord) (gl : List GlRecord) :
    runEngine bank gl =
      ((match_tolerance_date (match_exact_amount bank gl).1
          (match_exact_amount bank gl).2.1).1,
       (match_tolerance_date (match_exact_amount bank gl).1
          (match_exact_amount bank gl).2.1).2.1,
       (match_exact_amount bank gl).2.2 ++
         (match_tolerance_date (match_exact_amount bank gl).1
            (match_exact_amount bank gl).2.1).2.2) := rfl

/-- Bank-side injectivity of the whole run. -/
theorem engine_matches_bank_nodup (bank : List BankRecord)
    (gl : List GlRecord) (hnd : (bank.map BankRecord.bank_id).Nodup) :
    ((runEngine bank gl).2.2.map MatchResult.bank_id).Nodup := by
  rw [runEngine_def, match_exact_amount_def, match_tolerance_date_def]
  rw [List.map_append]
  have hids : ((runPhase exactDecision MatchType.exact_amount bank gl).1.map
      BankRecord.bank_id).Nodup := by
    rw [runPhase_bank_ids]; exact hnd
  refine List.Nodup.append
    (runPhase_matches_bank_nodup exactDecision_sound bank gl hnd)
    (runPhase_matches_bank_nodup toleranceDecision_sound _ _ hids) ?_
  intro a ha1 ha2
  rcases List.mem_map.mp ha1 with ⟨m1, hm1, hid1⟩
  rcases List.mem_map.mp ha2 with ⟨m2, hm2, hid2⟩
  rcases runPhase_matches_bankMarked bank gl m1 hm1
    with ⟨bm, hbm, hbmid, hbmtrue⟩
  rcases (runPhase_matches_origin0 toleranceDecision_sound _ _ m2 hm2).1
    with ⟨b0, hb0, hb0id, hb0f⟩
  have heq : bm = b0 :=
    List.inj_on_of_nodup_map hids hbm hb0
      (by rw [hbmid, hb0id, hid1, hid2])
  rw [heq, hb0f] at hbmtrue
  cases hbmtrue

/-- GL-side injectivity of the whole run (no uniqueness of GL ids is
even needed: a match marks every GL record carrying its id). -/
theorem engine_matches_gl_nodup (bank : List BankRecord)
    (gl : List GlRecord) :
    ((runEngine bank gl).2.2.map MatchResult.gl_id).Nodup := by
  rw [runEngine_def, match_exact_amount_def, match_tolerance_date_def]
  rw [List.map_append]
  refine List.Nodup.append
    (runPhase_matches_gl_nodup exactDecision_sound bank gl)
    (runPhase_matches_gl_nodup toleranceDecision_sound _ _) ?_
  intro a ha1 ha2
  rcases List.mem_map.mp ha1 with ⟨m1, hm1, hid1⟩
  rcases List.mem_map.mp ha2 with ⟨m2, hm2, hid2⟩
  rcases (runPhase_matches_origin0 toleranceDecision_sound _ _ m2 hm2).2
    with ⟨g0, hg0, hg0id, hg0f⟩
  have := runPhase_matches_glMarked bank gl m1 hm1 g0 hg0
    (by rw [hg0id, hid2, ← hid1])
  rw [this] at hg0f
  cases hg0f

/-- Pointwise bank-flag characterization of the whole run. -/
theorem engine_bank_flags (bank : List BankRecord) (gl : List GlRecord)
    (hnd : (bank.map BankRecord.bank_id).Nodup) :
    List.Forall₂ (fun b b2 => b2 =
      { b with matched := b.matched ||
          decide (b.bank_id ∈
            (runEngine bank gl).2.2.map MatchResult.bank_id) })
      bank (runEngine bank gl).1 := by
  have hids : ((runPhase exactDecision MatchType.exact_amount bank gl).1.map
      BankRecord.bank_id).Nodup := by
    rw [runPhase_bank_ids]; exact hnd
  have h1 := @runPhase_bank_flags exactDecision MatchType.exact_amount
    exactDecision_sound bank gl hnd
  have h2 := @runPhase_bank_flags toleranceDecision MatchType.tolerance_date
    toleranceDecision_sound
    (runPhase exactDecision MatchType.exact_amount bank gl).1
    (runPhase exactDecision MatchType.exact_amount bank gl).2.1 hids
  rw [runEngine_def, match_exact_amount_def, match_tolerance_date_def]
  refine @forall2_comp BankRecord BankRecord BankRecord _ _ _
    ?_ _ _ _ h1 h2
  intro b b1 b2 hr1 hr2
  rw [hr2, hr1]
  rw [List.map_append]
  cases hbm : b.matched <;> simp [hbm, Bool.or_assoc]

/-- Pointwise GL-flag characterization of the whole run. -/
theorem engine_gl_flags (bank : List BankRecord) (gl : List GlRecord) :
    List.Forall₂ (fun g g2 => g2 =
      { g with matched := g.matched ||
          decide (g.gl_id ∈
            (runEngine bank gl).2.2.map MatchResult.gl_id) })
      gl (runEngine bank gl).2.1 := by
  have h1 := @runPhase_gl_flags exactDecision MatchType.exact_amount bank gl
  have h2 := @runPhase_gl_flags toleranceDecision MatchType.tolerance_date
    (runPhase exactDecision MatchType.exact_amount bank gl).1
    (runPhase exactDecision MatchType.exact_amount bank gl).2.1
  rw [runEngine_def, match_exact_amount_def, match_tolerance_date_def]
  refine @forall2_comp GlRecord GlRecord GlRecord _ _ _
    ?_ _ _ _ h1 h2
  intro g g1 g2 hr1 hr2
  rw [hr2, hr1]
  rw [List.map_append]
  cases hgm : g.matched <;> simp [hgm, Bool.or_assoc]

end Reconcile

namespace Reconcile

/-! ## Normalizer lemmas -/

theorem lowerCode_idem (c : Nat) : lowerCode (lowerCode c) = lowerCode c := by
  unfold lowerCode
  split_ifs <;> omega

theorem prepChar_fix (c : Nat) :
    replCode (lowerCode (replCode (lowerCode c))) = replCode (lowerCode c) := by
  by_cases hp : lowerCode c ∈ PUNCT_CODES
  · have h1 : replCode (lowerCode c) = 32 := by rw [replCode, if_pos hp]
    rw [h1]
    decide
  · have h1 : replCode (lowerCode c) = lowerCode c := by rw [replCode, if_neg hp]
    rw [h1, lowerCode_idem, replCode, if_neg hp]

/-- Every token produced by the splitter is nonempty and
whitespace-free. -/
theorem splitWsAux_good :
    ∀ (s acc : List Nat), (∀ c ∈ acc, isWsCode c = false) →
      ∀ t ∈ splitWsAux s acc, t ≠ [] ∧ ∀ c ∈ t, isWsCode c = false := by
  intro s
  induction s with
  | nil =>
    intro acc hacc t ht
    by_cases hae : acc = []
    · simp [splitWsAux, hae] at ht
    · simp only [splitWsAux, if_neg hae] at ht
      rcases List.mem_singleton.mp ht with rfl
      exact ⟨hae, hacc⟩
  | cons c cs ih =>
    intro acc hacc t ht
    cases hws : isWsCode c with
    | true =>
      simp only [splitWsAux, hws, if_true] at ht
      by_cases hae : acc = []
      · rw [if_pos hae] at ht
        exact ih [] (by intro d hd; cases hd) t ht
      · rw [if_neg hae] at ht
        rcases List.mem_cons.mp ht with rfl | ht2
        · exact ⟨hae, hacc⟩
        · exact ih [] (by intro d hd; cases hd) t ht2
    | false =>
      simp only [splitWsAux, hws, Bool.false_eq_true, if_false] at ht
      refine ih (acc ++ [c]) ?_ t ht
      intro d hd
      rcases List.mem_append.mp hd with h | h
      · exact hacc d h
      · rcases List.mem_singleton.mp h with rfl
        exact hws

/-- Every code point of every token comes from the accumulator or the
input. -/
theorem splitWsAux_chars :
    ∀ (s acc : List Nat), ∀ t ∈ splitWsAux s acc, ∀ c ∈ t,
      c ∈ acc ∨ c ∈ s := by
  intro s
  induction s with
  | nil =>
    intro acc t ht c hc
    by_cases hae : acc = []
    · simp [splitWsAux, hae] at ht
    · simp only [splitWsAux, if_neg hae] at ht
      rcases List.mem_singleton.mp ht with rfl
      exact Or.inl hc
  | cons a cs ih =>
    intro acc t ht c hc
    cases hws : isWsCode a with
    | true =>
      simp only [splitWsAux, hws, if_true] at ht
      by_cases hae : acc = []
      · rw [if_pos hae] at ht
        rcases ih [] t ht c hc with h | h
        · cases h
        · exact Or.inr (List.mem_cons_of_mem _ h)
      · rw [if_neg hae] at ht
        rcases List.mem_cons.mp ht with rfl | ht2
        · exact Or.inl hc
        · rcases ih [] t ht2 c hc with h | h
          · cases h
          · exact Or.inr (List.mem_cons_of_mem _ h)
    | false =>
      simp only [splitWsAux, hws, Bool.false_eq_true, if_false] at ht
      rcases ih (acc ++ [a]) t ht c hc with h | h
      · rcases List.mem_append.mp h with h2 | h2
        · exact Or.inl h2
        · rcases List.mem_singleton.mp h2 with rfl
          exact Or.inr (List.mem_cons_self _ _)
      · exact Or.inr (List.mem_cons_of_mem _ h)

theorem splitWs_good {x : List Nat} :
    ∀ t ∈ splitWs x, t ≠ [] ∧ ∀ c ∈ t, isWsCode c = false :=
  splitWsAux_good x [] (by intro d hd; cases hd)

theorem splitWs_chars {x t : List Nat} (ht : t ∈ splitWs x) {c : Nat}
    (hc : c ∈ t) : c ∈ x := by
  rcases splitWsAux_chars x [] t ht c hc with h | h
  · cases h
  · exact h

/-- Consuming a whitespace-free run appends it to the accumulator. -/
theorem splitWsAux_append_token :
    ∀ (t rest acc : List Nat), (∀ c ∈ t, isWsCode c = false) →
      splitWsAux (t ++ rest) acc = splitWsAux rest (acc ++ t) := by
  intro t
  induction t with
  | nil => intro rest acc _; simp
  | cons c t ih =>
    intro rest acc hh
    have hc : isWsCode c = false := hh c (List.mem_cons_self _ _)
    rw [List.cons_append]
    simp only [splitWsAux, hc, Bool.false_eq_true, if_false]
    rw [ih rest (acc ++ [c]) (fun d hd => hh d (List.mem_cons_of_mem _ hd))]
    rw [List.append_assoc, List.singleton_append]

theorem splitWs_single {t : List Nat} (ht : t ≠ [])
    (hh : ∀ c ∈ t, isWsCode c = false) : splitWs t = [t] := by
  have h := splitWsAux_append_token t [] [] hh
  rw [List.append_nil, List.nil_append] at h
  rw [splitWs, h]
  simp [splitWsAux, ht]

theorem splitWs_token_cons {t : List Nat} (rest : List Nat) (ht : t ≠ [])
    (hh : ∀ c ∈ t, isWsCode c = false) :
    splitWs (t ++ 32 :: rest) = t :: splitWs rest := by
  rw [splitWs, splitWsAux_append_token t (32 :: rest) [] hh, List.nil_append]
  simp only [splitWsAux]
  have h32 : isWsCode 32 = true := rfl
  rw [if_pos h32, if_neg ht]
  rfl

/-- Splitting the space-join of nonempty whitespace-free tokens recovers
exactly the tokens. -/
theorem splitWs_joinTokens :
    ∀ (ts : List (List Nat)),
      (∀ t ∈ ts, t ≠ [] ∧ ∀ c ∈ t, isWsCode c = false) →
      splitWs (joinTokens ts) = ts := by
  intro ts
  induction ts with
  | nil => intro _; rfl
  | cons t ts ih =>
    intro hgood
    rcases hgood t (List.mem_cons_self _ _) with ⟨htne, htws⟩
    cases ts with
    | nil =>
      show splitWs (joinTokens [t]) = [t]
      rw [joinTokens]
      exact splitWs_single htne htws
    | cons t2 ts2 =>
      show splitWs (t ++ 32 :: joinTokens (t2 :: ts2)) = t :: t2 :: ts2
      rw [splitWs_token_cons _ htne htws,
        ih (fun u hu => hgood u (List.mem_cons_of_mem _ hu))]

theorem joinTokens_chars :
    ∀ (ts : List (List Nat)) (c : Nat), c ∈ joinTokens ts →
      c = 32 ∨ ∃ t ∈ ts, c ∈ t := by
  intro ts
  induction ts with
  | nil => intro c hc; cases hc
  | cons t ts ih =>
    intro c hc
    cases ts with
    | nil =>
      rw [joinTokens] at hc
      exact Or.inr ⟨t, List.mem_cons_self _ _, hc⟩
    | cons t2 ts2 =>
      rw [joinTokens] at hc
      rcases List.mem_append.mp hc with h | h
      · exact Or.inr ⟨t, List.mem_cons_self _ _, h⟩
      · rcases List.mem_cons.mp h with rfl | h2
        · exact Or.inl rfl
        · rcases ih c h2 with h3 | ⟨u, hu, hcu⟩
          · exact Or.inl h3
          · exact Or.inr ⟨u, List.mem_cons_of_mem _ hu, hcu⟩

/-- A normalized string is a fixed point of the lowercase-and-replace
preprocessing. -/
theorem normalize_text_prep_fix (s : List Nat) :
    ((normalize_text s).map lowerCode).map replCode = normalize_text s := by
  rw [List.map_map]
  have hfix : ∀ c ∈ normalize_text s, (replCode ∘ lowerCode) c = id c := by
    intro c hc
    rcases joinTokens_chars _ c hc with h32 | ⟨t, ht, hct⟩
    · subst h32; decide
    · have hcs : c ∈ (s.map lowerCode).map replCode := splitWs_chars ht hct
      rw [List.map_map] at hcs
      rcases List.mem_map.mp hcs with ⟨c0, _, he⟩
      show replCode (lowerCode c) = c
      rw [← he]
      exact prepChar_fix c0
  rw [List.map_congr_left hfix, List.map_id]

/-- `normalize_text` is idempotent. -/
theorem normalize_text_idem (s : List Nat) :
    normalize_text (normalize_text s) = normalize_text s := by
  conv_lhs => rw [normalize_text]
  rw [normalize_text_prep_fix, normalize_text,
    splitWs_joinTokens _ splitWs_good]

end Reconcile

namespace Reconcile

/-! ## Claims -/

/-- C1: for every run of the engine (`match_exact_amount` followed by
`match_tolerance_date`) on record sets with unique `bank_id` and `gl_id`
keys, the combined match list is injective on both sides: no bank id and
no GL id occurs in more than one MatchResult. -/
theorem claim1_injective_pairing (bank : List BankRecord)
    (gl : List GlRecord) (hbank : (bank.map BankRecord.bank_id).Nodup)
    (_hgl : (gl.map GlRecord.gl_id).Nodup) :
    ((runEngine bank gl).2.2.map MatchResult.bank_id).Nodup ∧
    ((runEngine bank gl).2.2.map MatchResult.gl_id).Nodup :=
  ⟨engine_matches_bank_nodup bank gl hbank, engine_matches_gl_nodup bank gl⟩

theorem claim1_injective_pairing_witness :
    ((runEngine
        [⟨1, some 10, some 100, [], false⟩, ⟨2, some 11, some 50, [], false⟩]
        [⟨21, some 12, some 100, [], false⟩,
         ⟨22, some 11, some 50, [], false⟩]).2.2.map
        MatchResult.bank_id).Nodup ∧
    ((runEngine
        [⟨1, some 10, some 100, [], false⟩, ⟨2, some 11, some 50, [], false⟩]
        [⟨21, some 12, some 100, [], false⟩,
         ⟨22, some 11, some 50, [], false⟩]).2.2.map
        MatchResult.gl_id).Nodup :=
  claim1_injective_pairing _ _ (by decide) (by decide)

/-- C2: after both phases (starting from freshly loaded records, all
flags false, unique keys) the flag of every record is true iff its id appears
in some MatchResult, its id appears in exactly one MatchResult when
matched and in none otherwise, and the unmatched views are exactly the
records whose flag is false; this holds on the bank side and on the GL
side. -/
theorem claim2_partition (bank : List BankRecord) (gl : List GlRecord)
    (hb0 : ∀ b ∈ bank, b.matched = false)
    (hg0 : ∀ g ∈ gl, g.matched = false)
    (hbank : (bank.map BankRecord.bank_id).Nodup)
    (_hgl : (gl.map GlRecord.gl_id).Nodup) :
    (∀ b2 ∈ (runEngine bank gl).1,
      (b2.matched = true ↔
        b2.bank_id ∈ (runEngine bank gl).2.2.map MatchResult.bank_id) ∧
      ((runEngine bank gl).2.2.map MatchResult.bank_id).count b2.bank_id =
        (if b2.matched then 1 else 0) ∧
      (b2 ∈ unmatched_bank (runEngine bank gl).1 ↔ b2.matched = false)) ∧
    (∀ g2 ∈ (runEngine bank gl).2.1,
      (g2.matched = true ↔
        g2.gl_id ∈ (runEngine bank gl).2.2.map MatchResult.gl_id) ∧
      ((runEngine bank gl).2.2.map MatchResult.gl_id).count g2.gl_id =
        (if g2.matched then 1 else 0) ∧
      (g2 ∈ unmatched_gl (runEngine bank gl).2.1 ↔ g2.matched = false)) := by
  constructor
  · intro b2 hb2
    rcases forall2_mem_right (engine_bank_flags bank gl hbank) hb2
      with ⟨b, hb, hrel⟩
    have hbm : b.matched = false := hb0 b hb
    have hflag : b2.matched = decide (b.bank_id ∈
        (runEngine bank gl).2.2.map MatchResult.bank_id) := by
      rw [hrel, hbm, Bool.false_or]
    have hbid : b2.bank_id = b.bank_id := by rw [hrel]
    have hiff : b2.matched = true ↔
        b2.bank_id ∈ (runEngine bank gl).2.2.map MatchResult.bank_id := by
      rw [hflag, hbid, decide_eq_true_iff]
    refine ⟨hiff, ?_, ?_⟩
    · have hnd := engine_matches_bank_nodup bank gl hbank
      cases hm2 : b2.matched with
      | true =>
        rw [if_pos rfl]
        exact List.count_eq_one_of_mem hnd (hiff.mp hm2)
      | false =>
        rw [if_neg (by simp)]
        refine List.count_eq_zero.mpr ?_
        intro hmem
        rw [hiff.mpr hmem] at hm2
        cases hm2
    · rw [unmatched_bank, List.mem_filter]
      constructor
      · intro h
        rcases h with ⟨_, h2⟩
        rw [Bool.not_eq_true'] at h2
        exact h2
      · intro h
        exact ⟨hb2, by rw [Bool.not_eq_true', h]⟩
  · intro g2 hg2
    rcases forall2_mem_right (engine_gl_flags bank gl) hg2
      with ⟨g, hg, hrel⟩
    have hgm : g.matched = false := hg0 g hg
    have hflag : g2.matched = decide (g.gl_id ∈
        (runEngine bank gl).2.2.map MatchResult.gl_id) := by
      rw [hrel, hgm, Bool.false_or]
    have hgid : g2.gl_id = g.gl_id := by rw [hrel]
    have hiff : g2.matched = true ↔
        g2.gl_id ∈ (runEngine bank gl).2.2.map MatchResult.gl_id := by
      rw [hflag, hgid, decide_eq_true_iff]
    refine ⟨hiff, ?_, ?_⟩
    · have hnd := engine_matches_gl_nodup bank gl
      cases hm2 : g2.matched with
      | true =>
        rw [if_pos rfl]
        exact List.count_eq_one_of_mem hnd (hiff.mp hm2)
      | false =>
        rw [if_neg (by simp)]
        refine List.count_eq_zero.mpr ?_
        intro hmem
        rw [hiff.mpr hmem] at hm2
        cases hm2
    · rw [unmatched_gl, List.mem_filter]
      constructor
      · intro h
        rcases h with ⟨_, h2⟩
        rw [Bool.not_eq_true'] at h2
        exact h2
      · intro h
        exact ⟨hg2, by rw [Bool.not_eq_true', h]⟩

theorem claim2_partition_witness :
    ((⟨1, some 10, some 100, ([] : List Nat), true⟩ : BankRecord).matched = true ↔
      (⟨1, some 10, some 100, ([] : List Nat), true⟩ : BankRecord).bank_id ∈
        (runEngine
          [⟨1, some 10, some 100, [], false⟩, ⟨2, some 11, some 50, [], false⟩]
          [⟨21, some 12, some 100, [], false⟩]).2.2.map
          MatchResult.bank_id) ∧
    ((runEngine
        [⟨1, some 10, some 100, [], false⟩, ⟨2, some 11, some 50, [], false⟩]
        [⟨21, some 12, some 100, [], false⟩]).2.2.map
        MatchResult.bank_id).count
      (⟨1, some 10, some 100, ([] : List Nat), true⟩ : BankRecord).bank_id =
      (if (⟨1, some 10, some 100, ([] : List Nat), true⟩ : BankRecord).matched
        then 1 else 0) ∧
    ((⟨1, some 10, some 100, ([] : List Nat), true⟩ : BankRecord) ∈
      unmatched_bank (runEngine
        [⟨1, some 10, some 100, [], false⟩, ⟨2, some 11, some 50, [], false⟩]
        [⟨21, some 12, some 100, [], false⟩]).1 ↔
      (⟨1, some 10, some 100, ([] : List Nat), true⟩ : BankRecord).matched =
        false) :=
  (claim2_partition
    [⟨1, some 10, some 100, [], false⟩, ⟨2, some 11, some 50, [], false⟩]
    [⟨21, some 12, some 100, [], false⟩]
    (by decide) (by decide) (by decide) (by decide)).1
    ⟨1, some 10, some 100, [], true⟩ (by decide)

end Reconcile

namespace Reconcile

/-- C3: in the exact-amount phase an open bank record is paired iff
exactly one currently-unmatched GL record has exactly its amount; on
pairing a MatchResult of type `exact_amount` is emitted, both flags are
set, and the GL record leaves the pool seen by every later bank record;
with zero or two-or-more candidates the record is left open.  Dates and
text play no role: the behaviour depends only on the amount-equality
candidate pool. -/
theorem claim3_exact_step (b : BankRecord) (bs : List BankRecord)
    (gl : List GlRecord) (hmb : b.matched = false) :
    (∀ g, exactCandidates b gl = [g] →
      match_exact_amount (b :: bs) gl =
        ({ b with matched := true } ::
            (match_exact_amount bs (markGl gl g.gl_id)).1,
         (match_exact_amount bs (markGl gl g.gl_id)).2.1,
         MatchResult.mk b.bank_id g.gl_id MatchType.exact_amount ::
           (match_exact_amount bs (markGl gl g.gl_id)).2.2) ∧
      (∀ b2 g2, g2 ∈ exactCandidates b2 (markGl gl g.gl_id) →
        g2.gl_id ≠ g.gl_id)) ∧
    ((exactCandidates b gl).length ≠ 1 →
      match_exact_amount (b :: bs) gl =
        (b :: (match_exact_amount bs gl).1,
         (match_exact_amount bs gl).2)) := by
  constructor
  · intro g hc
    constructor
    · rw [match_exact_amount_def, match_exact_amount_def,
        runPhase_cons_pick MatchType.exact_amount bs hmb
          (exactDecision_eq_some hc)]
    · intro b2 g2 hg2 hid
      rcases exactCandidates_mem.mp hg2 with ⟨hg2m, hg2f, _⟩
      rw [markGl_marks hg2m hid] at hg2f
      cases hg2f
  · intro hlen
    rw [match_exact_amount_def, match_exact_amount_def,
      runPhase_cons_skip MatchType.exact_amount bs hmb
        (exactDecision_eq_none hlen)]

theorem claim3_exact_step_witness :
    match_exact_amount
        [⟨1, none, some 5, [], false⟩] [⟨21, none, some 5, [], false⟩] =
      ([⟨1, none, some 5, [], true⟩],
       [⟨21, none, some 5, [], true⟩],
       [⟨1, 21, MatchType.exact_amount⟩]) := by
  have h := ((claim3_exact_step ⟨1, none, some 5, [], false⟩ []
    [⟨21, none, some 5, [], false⟩] rfl).1
    ⟨21, none, some 5, [], false⟩ (by decide)).1
  rw [h]
  decide

/-- C4: with a parsed bank date `d` and amount `a`, a GL record is in the
tolerance-phase candidate pool iff it is currently unmatched with a
parsed posting date in `[d−3, d+3]` and a parsed amount in
`[a−1, a+1]`; both boundaries inclusive, so distance exactly
`TOLERANCE`/`DATE_WINDOW_DAYS` qualifies while `TOLERANCE + 0.01` or
`DATE_WINDOW_DAYS + 1` is excluded. -/
theorem claim4_tolerance_window (b : BankRecord) (gl : List GlRecord)
    (d : Int) (a : ℚ) (g : GlRecord)
    (_hd : b.txn_date = some d) (_ha : b.amount = some a) :
    (g ∈ tolCandidates d a gl ↔
      g ∈ gl ∧ g.matched = false ∧
      (∃ pd, g.posting_date = some pd ∧
        d - DATE_WINDOW_DAYS ≤ pd ∧ pd ≤ d + DATE_WINDOW_DAYS) ∧
      (∃ ga, g.amount = some ga ∧
        a - TOLERANCE ≤ ga ∧ ga ≤ a + TOLERANCE)) ∧
    (g ∈ gl → g.matched = false →
      g.posting_date = some (d + DATE_WINDOW_DAYS) →
      g.amount = some (a + TOLERANCE) → g ∈ tolCandidates d a gl) ∧
    (g.amount = some (a + TOLERANCE + 1/100) → g ∉ tolCandidates d a gl) ∧
    (g.posting_date = some (d + DATE_WINDOW_DAYS + 1) →
      g ∉ tolCandidates d a gl) := by
  refine ⟨tolCandidates_mem, ?_, ?_, ?_⟩
  · intro hg hm hpd hga
    refine tolCandidates_mem.mpr ⟨hg, hm, ⟨d + DATE_WINDOW_DAYS, hpd, ?_, le_refl _⟩,
      ⟨a + TOLERANCE, hga, ?_, le_refl _⟩⟩
    · have h3 : (0 : Int) ≤ DATE_WINDOW_DAYS := by rw [DATE_WINDOW_DAYS]; omega
      omega
    · have h1 : (0 : ℚ) ≤ TOLERANCE := by rw [TOLERANCE]; norm_num
      linarith
  · intro hga hmem
    rcases tolCandidates_mem.mp hmem with ⟨_, _, _, ga, hga2, _, hle⟩
    rw [hga] at hga2
    rcases Option.some.injEq .. ▸ hga2 with rfl
    linarith
  · intro hpd hmem
    rcases tolCandidates_mem.mp hmem with ⟨_, _, ⟨pd, hpd2, _, hle⟩, _⟩
    rw [hpd] at hpd2
    rcases Option.some.injEq .. ▸ hpd2 with rfl
    omega

theorem claim4_tolerance_window_witness :
    ((⟨21, some 13, some 101, [], false⟩ : GlRecord) ∈
      tolCandidates 10 100 [⟨21, some 13, some 101, [], false⟩]) ∧
    ((⟨22, some 13, some (10101/100), [], false⟩ : GlRecord) ∉
      tolCandidates 10 100 [⟨22, some 13, some (10101/100), [], false⟩]) ∧
    ((⟨23, some 14, some 101, [], false⟩ : GlRecord) ∉
      tolCandidates 10 100 [⟨23, some 14, some 101, [], false⟩]) := by
  refine ⟨?_, ?_, ?_⟩
  · exact (claim4_tolerance_window ⟨1, some 10, some 100, [], false⟩
      [⟨21, some 13, some 101, [], false⟩] 10 100
      ⟨21, some 13, some 101, [], false⟩ rfl rfl).2.1
      (List.mem_cons_self _ _) rfl (by decide) (by norm_num [TOLERANCE])
  · exact (claim4_tolerance_window ⟨1, some 10, some 100, [], false⟩
      [⟨22, some 13, some (10101/100), [], false⟩] 10 100
      ⟨22, some 13, some (10101/100), [], false⟩ rfl rfl).2.2.1
      (by norm_num [TOLERANCE])
  · exact (claim4_tolerance_window ⟨1, some 10, some 100, [], false⟩
      [⟨23, some 14, some 101, [], false⟩] 10 100
      ⟨23, some 14, some 101, [], false⟩ rfl rfl).2.2.2
      (by decide)

end Reconcile

namespace Reconcile

/-- C5: in the tolerance phase the top-scoring candidate is accepted iff
there is exactly one candidate in total or the top score is at least 1;
with two or more candidates all scoring 0 token overlap, the bank record
is left unmatched. -/
theorem claim5_acceptance (b : BankRecord) (gl : List GlRecord) (d : Int)
    (a : ℚ) (best : GlRecord) (sc : Nat)
    (hd : b.txn_date = some d) (ha : b.amount = some a)
    (hbc : bestCandidate b.desc_norm (tolCandidates d a gl) =
      some (best, sc)) :
    (toleranceDecision b gl = some best.gl_id ↔
      ((tolCandidates d a gl).length = 1 ∨ 1 ≤ sc)) ∧
    ((2 ≤ (tolCandidates d a gl).length ∧
      ∀ g ∈ tolCandidates d a gl,
        overlapScore b.desc_norm g.memo_norm = 0) →
      toleranceDecision b gl = none) := by
  have heq := toleranceDecision_eq_best hd ha hbc
  constructor
  · rw [heq]
    by_cases hacc : (tolCandidates d a gl).length = 1 ∨ 1 ≤ sc
    · rw [if_pos hacc]
      exact ⟨fun _ => hacc, fun _ => rfl⟩
    · rw [if_neg hacc]
      constructor
      · intro h; cases h
      · intro h; exact absurd h hacc
  · rintro ⟨hlen, hzero⟩
    rcases bestCandidate_some hbc with ⟨hmem, hsc⟩
    have hsc0 : sc = 0 := by rw [hsc]; exact hzero best hmem
    rw [heq, if_neg]
    rintro (h1 | h2)
    · omega
    · rw [hsc0] at h2; omega

theorem claim5_acceptance_witness :
    toleranceDecision
      ⟨1, some 10, some 100, strCodes ("payment for invoice 402"), false⟩
      [⟨21, some 10, some 100, strCodes ("office supplies"), false⟩,
       ⟨22, some 10, some 100, strCodes ("travel reimbursement"), false⟩] =
      none := by
  have hc : tolCandidates 10 100
      [⟨21, some 10, some 100, strCodes ("office supplies"), false⟩,
       ⟨22, some 10, some 100, strCodes ("travel reimbursement"), false⟩] =
      [⟨21, some 10, some 100, strCodes ("office supplies"), false⟩,
       ⟨22, some 10, some 100, strCodes ("travel reimbursement"), false⟩] := by
    rw [tolCandidates]
    refine List.filter_eq_self.mpr ?_
    intro g hg
    rcases List.mem_cons.mp hg with rfl | hg2
    · norm_num [dateInWindow, amtBetween, TOLERANCE, DATE_WINDOW_DAYS]
    rcases List.mem_cons.mp hg2 with rfl | hg3
    · norm_num [dateInWindow, amtBetween, TOLERANCE, DATE_WINDOW_DAYS]
    cases hg3
  refine (claim5_acceptance
    ⟨1, some 10, some 100, strCodes ("payment for invoice 402"), false⟩
    [⟨21, some 10, some 100, strCodes ("office supplies"), false⟩,
     ⟨22, some 10, some 100, strCodes ("travel reimbursement"), false⟩]
    10 100
    ⟨21, some 10, some 100, strCodes ("office supplies"), false⟩ 0
    rfl rfl ?_).2 ?_
  · rw [hc]
    decide
  · rw [hc]
    exact ⟨by decide, by decide⟩

/-- C6: records with a missing (unparseable) date or amount are never
paired by the tolerance phase, on either side; a missing amount also
rules out the exact phase; but a record whose amount parsed may still be
paired by the exact phase even with a missing date. -/
theorem claim6_missing_fields :
    (∀ (b : BankRecord) (gl : List GlRecord),
      (b.txn_date = none ∨ b.amount = none) →
      toleranceDecision b gl = none) ∧
    (∀ (d : Int) (a : ℚ) (gl : List GlRecord), ∀ g ∈ tolCandidates d a gl,
      g.posting_date ≠ none ∧ g.amount ≠ none) ∧
    (∀ (b : BankRecord) (gl : List GlRecord), b.amount = none →
      exactDecision b gl = none) ∧
    (∀ (bank : List BankRecord) (gl : List GlRecord) (m : MatchResult),
      m ∈ (match_tolerance_date bank gl).2.2 →
      (∃ b ∈ bank, b.bank_id = m.bank_id ∧ b.matched = false ∧
        b.txn_date ≠ none ∧ b.amount ≠ none) ∧
      (∃ g ∈ gl, g.gl_id = m.gl_id ∧ g.matched = false ∧
        g.posting_date ≠ none ∧ g.amount ≠ none)) ∧
    (∀ (bank : List BankRecord) (gl : List GlRecord) (m : MatchResult),
      m ∈ (match_exact_amount bank gl).2.2 →
      (∃ b ∈ bank, b.bank_id = m.bank_id ∧ b.matched = false ∧
        b.amount ≠ none) ∧
      (∃ g ∈ gl, g.gl_id = m.gl_id ∧ g.matched = false ∧
        g.amount ≠ none)) ∧
    (match_exact_amount [⟨1, none, some 5, [], false⟩]
        [⟨21, none, some 5, [], false⟩]).2.2 =
      [⟨1, 21, MatchType.exact_amount⟩] := by
  refine ⟨?_, ?_, ?_, ?_, ?_, by decide⟩
  · intro b gl h
    exact toleranceDecision_missing h
  · intro d a gl g hg
    rcases tolCandidates_mem.mp hg with ⟨_, _, ⟨pd, hpd, _⟩, ⟨ga, hga, _⟩⟩
    rw [hpd, hga]
    exact ⟨by simp, by simp⟩
  · intro b gl hba
    have hc : exactCandidates b gl = [] := by
      rw [exactCandidates]
      refine List.filter_eq_nil_iff.mpr ?_
      intro g _
      rw [hba]
      cases g.amount <;> simp [amtEq]
    rw [exactDecision, hc]
  · intro bank gl m hm
    rw [match_tolerance_date_def] at hm
    refine runPhase_matches_origin
      (fun b => b.txn_date ≠ none ∧ b.amount ≠ none)
      (fun g => g.posting_date ≠ none ∧ g.amount ≠ none)
      ?_ ?_ bank gl m hm
    · intro b gl2 gid hpk
      rcases toleranceDecision_some_inv hpk with ⟨d, a, hd, ha, _⟩
      rw [hd, ha]
      exact ⟨by simp, by simp⟩
    · intro b gl2 gid hpk
      rcases toleranceDecision_some_inv hpk with ⟨d, a, _, _, g, hg, hgi⟩
      rcases tolCandidates_mem.mp hg
        with ⟨hgl2, hgm, ⟨pd, hpd, _⟩, ⟨ga, hga, _⟩⟩
      exact ⟨g, hgl2, hgi, hgm, by rw [hpd]; simp, by rw [hga]; simp⟩
  · intro bank gl m hm
    rw [match_exact_amount_def] at hm
    refine runPhase_matches_origin
      (fun b => b.amount ≠ none) (fun g => g.amount ≠ none)
      ?_ ?_ bank gl m hm
    · intro b gl2 gid hpk
      rcases exactDecision_some_amounts hpk with ⟨qa, hba, _⟩
      rw [hba]
      simp
    · intro b gl2 gid hpk
      rcases exactDecision_some_amounts hpk
        with ⟨qa, _, g, hg, hgi, hgm, hga⟩
      exact ⟨g, hg, hgi, hgm, by simp [hga]⟩

theorem claim6_missing_fields_witness :
    toleranceDecision ⟨1, none, some 5, [], false⟩
      [⟨21, some 10, some 5, [], false⟩] = none :=
  claim6_missing_fields.1 ⟨1, none, some 5, [], false⟩
    [⟨21, some 10, some 5, [], false⟩] (Or.inl rfl)

/-- C7 counterexample: a duplicate-amount group of two bank and two GL
records sharing one amount is NOT resolved in load order by the
exact-amount phase — no record is matched and no flag is set, because
every bank record sees two candidates and the phase requires a unique
candidate. -/
theorem claim7_counterexample :
    match_exact_amount
        [⟨1, some 10, some 5, [], false⟩, ⟨2, some 11, some 5, [], false⟩]
        [⟨21, some 10, some 5, [], false⟩,
         ⟨22, some 11, some 5, [], false⟩] =
      ([⟨1, some 10, some 5, [], false⟩, ⟨2, some 11, some 5, [], false⟩],
       [⟨21, some 10, some 5, [], false⟩, ⟨22, some 11, some 5, [], false⟩],
       []) := by
  decide

/-- C7 amended: order-dependence in the exact phase happens only through
pool shrinking on unambiguous matches.  (i) If at least two unmatched GL
records carry amount `a`, a run over bank records that all carry amount
`a` matches nothing and changes nothing.  (ii) When the candidate for an
open bank record is unique, that earliest record claims it and the
claimed GL record is excluded from every later candidate pool. -/
theorem claim7_amended :
    (∀ (a : ℚ) (bs : List BankRecord) (gl : List GlRecord),
      2 ≤ (gl.filter (fun g => !g.matched && amtEq g.amount (some a))).length →
      (∀ b ∈ bs, b.amount = some a) →
      match_exact_amount bs gl = (bs, gl, [])) ∧
    (∀ (b : BankRecord) (bs : List BankRecord) (gl : List GlRecord) (g : GlRecord),
      b.matched = false → exactCandidates b gl = [g] →
      match_exact_amount (b :: bs) gl =
        ({ b with matched := true } ::
            (match_exact_amount bs (markGl gl g.gl_id)).1,
         (match_exact_amount bs (markGl gl g.gl_id)).2.1,
         MatchResult.mk b.bank_id g.gl_id MatchType.exact_amount ::
           (match_exact_amount bs (markGl gl g.gl_id)).2.2) ∧
      (∀ b2 g2, g2 ∈ exactCandidates b2 (markGl gl g.gl_id) →
        g2.gl_id ≠ g.gl_id)) := by
  constructor
  · intro a bs
    induction bs with
    | nil => intro gl _ _; rfl
    | cons b bs ih =>
      intro gl hlen hall
      have hba : b.amount = some a := hall b (List.mem_cons_self _ _)
      have hc : exactCandidates b gl =
          gl.filter (fun g => !g.matched && amtEq g.amount (some a)) := by
        rw [exactCandidates, hba]
      have hd : exactDecision b gl = none := by
        refine exactDecision_eq_none ?_
        rw [hc]
        omega
      have hrec := ih gl hlen (fun b2 hb2 => hall b2 (List.mem_cons_of_mem _ hb2))
      rw [match_exact_amount_def] at hrec ⊢
      cases hmb : b.matched with
      | true =>
        rw [runPhase_cons_matched exactDecision MatchType.exact_amount bs gl hmb,
          hrec]
      | false =>
        rw [runPhase_cons_skip MatchType.exact_amount bs hmb hd, hrec]
  · intro b bs gl g hmb hc
    constructor
    · rw [match_exact_amount_def, match_exact_amount_def,
        runPhase_cons_pick MatchType.exact_amount bs hmb
          (exactDecision_eq_some hc)]
    · intro b2 g2 hg2 hid
      rcases exactCandidates_mem.mp hg2 with ⟨hg2m, hg2f, _⟩
      rw [markGl_marks hg2m hid] at hg2f
      cases hg2f

theorem claim7_amended_witness :
    match_exact_amount
        [⟨1, some 10, some 7, [], false⟩, ⟨2, some 11, some 7, [], false⟩,
         ⟨3, some 12, some 7, [], false⟩]
        [⟨21, some 10, some 7, [], false⟩,
         ⟨22, some 11, some 7, [], false⟩,
         ⟨23, some 12, some 7, [], false⟩] =
      ([⟨1, some 10, some 7, [], false⟩, ⟨2, some 11, some 7, [], false⟩,
        ⟨3, some 12, some 7, [], false⟩],
       [⟨21, some 10, some 7, [], false⟩,
        ⟨22, some 11, some 7, [], false⟩,
        ⟨23, some 12, some 7, [], false⟩],
       []) :=
  claim7_amended.1 7 _ _ (by decide) (by decide)

end Reconcile

namespace Reconcile

/-- C9: `normalize_text` is idempotent, and the two spec example strings
differing only by case and punctuation produce the same token set. -/
theorem claim9_normalizer_idempotent :
    (∀ s : List Nat, normalize_text (normalize_text s) = normalize_text s) ∧
    tokenSet (normalize_text (strCodes ("Invoice #402, Net-30"))) =
      tokenSet (normalize_text (strCodes ("invoice 402 net 30"))) := by
  refine ⟨normalize_text_idem, ?_⟩
  decide

/-- C10: the two positional accesses of a best candidate are guarded: a
phase-1 candidate pool of length 1 really is a singleton with a defined
head, and the phase-2 sorted pool has a defined head whenever the
candidate pool that was checked non-empty is non-empty, so neither
`iloc[0]` can fail on any input. -/
theorem claim10_guarded_access (b : BankRecord) (gl : List GlRecord) :
    ((exactCandidates b gl).length = 1 →
      ∃ g, exactCandidates b gl = [g] ∧
        (exactCandidates b gl).head? = some g) ∧
    (∀ cands : List GlRecord, cands ≠ [] →
      (bestCandidate b.desc_norm cands).isSome = true) := by
  constructor
  · intro hlen
    cases hc : exactCandidates b gl with
    | nil => rw [hc] at hlen; cases hlen
    | cons g t =>
      cases t with
      | nil => exact ⟨g, rfl, rfl⟩
      | cons g2 t2 =>
        rw [hc] at hlen
        simp at hlen
  · intro cands hne
    exact bestCandidate_isSome hne

theorem claim10_guarded_access_witness :
    (∃ g, exactCandidates ⟨1, none, some 5, [], false⟩
        [⟨21, none, some 5, [], false⟩] = [g] ∧
      (exactCandidates ⟨1, none, some 5, [], false⟩
        [⟨21, none, some 5, [], false⟩]).head? = some g) ∧
    (bestCandidate ([] : List Nat)
      [⟨21, none, some 5, [], false⟩]).isSome = true :=
  ⟨(claim10_guarded_access ⟨1, none, some 5, ([] : List Nat), false⟩
      [⟨21, none, some 5, [], false⟩]).1 (by decide),
   (claim10_guarded_access ⟨1, none, some 5, ([] : List Nat), false⟩
      [⟨21, none, some 5, [], false⟩]).2
      [⟨21, none, some 5, [], false⟩] (by decide)⟩

end Reconcile
